import Mathlib

/-!
Verification of the `cats` stream-transformation pipeline (`src/cats.c`).

The embedding models byte streams as `List Nat` (byte values 0..255).
C `char` is signed on the reference platforms, so wherever the source
performs arithmetic on `char` values the model sign-extends explicitly
(`sext`) and reduces modulo 2^32 where C `int` arithmetic applies.
Uninitialized C memory that the source reads (the `maybe_bom` tail on a
short `fread`, `buffer[1]` in the decoder when no full pair was read, and
`buf` in the filter when `get_control_seq` fails for DEL) is modelled by
explicit parameters holding the indeterminate contents.

Streams that the program writes are modelled as event lists: the filter
writes line-number prefixes via `printf` and control renderings via
`fputs(..., stdout)` (always standard output), while the running byte goes
to the `out` argument via `fputc` (standard output, or the rewritten file
in overwrite mode).  The `stderr` verbose summary and `fflush` calls have
no effect on the modelled byte streams and are not represented.
-/

namespace Cats

/-- Mirror of the global option flags of `cats.c` (lines 76-82). -/
structure Config where
  verbose : Bool
  line_numbers : Bool
  show_control : Bool
  suppress_blank : Bool
  unbuffered : Bool
  overwrite : Bool
deriving DecidableEq, Repr

/-- All flags off: the state of the globals before argument parsing. -/
def noFlags : Config := ⟨false, false, false, false, false, false⟩

/-- The persistent (`static`) state of `cats` (lines 305-308): the running
byte `c` (initially `'\0'`, `-1` = `EOF` after a file ends), the current
line number, and the `prev_is_lf` flag (initially true). -/
structure FState where
  c : Int
  current_line : Nat
  prev_is_lf : Bool
deriving DecidableEq, Repr

/-- The filter state at program start. -/
def initState : FState := ⟨0, 0, true⟩

/-- One write performed by the filter.  `num`/`seq` are written to standard
output (`printf` at line 341 and `fputs(buf, stdout)` at line 350), `put`
is written to the `out` stream (`fputc(c, out)` at line 367). -/
inductive Ev where
  | num : Nat → Ev
  | seq : List Nat → Ev
  | put : Nat → Ev
deriving DecidableEq, Repr

/-- `control_chars` table (lines 58-61) as byte lists; index 10 is `"$"`. -/
def control_chars : List (List Nat) :=
  [[94,64],[94,65],[94,66],[94,67],[94,68],[94,69],[94,70],[94,71],[94,72],[94,73],
   [36],
   [94,75],[94,76],[94,77],[94,78],[94,79],[94,80],[94,81],[94,82],[94,83],[94,84],
   [94,85],[94,86],[94,87],[94,88],[94,89],[94,90],[94,91],[94,92],[94,93],[94,94],[94,95]]

/-- `iscntrl` in the default C locale: bytes 0x00..0x1F and 0x7F. -/
def iscntrlB (b : Nat) : Bool := b < 32 || b == 127

/-- The bytes `fputs` actually writes from a buffer: everything before the
first NUL (the buffer is treated as a C string). -/
def cstr (l : List Nat) : List Nat := l.takeWhile (fun b => !(b == 0))

/-- Bytes written by `fputs(buf, stdout)` after `get_control_seq(buf, c)`
(lines 348-350): for `c < 32` the table entry; for DEL (0x7F)
`get_control_seq` returns false without touching `buf`, so the source
prints the indeterminate contents of the uninitialized 3-byte stack buffer,
modelled by the parameter `delG` read as a C string. -/
def ctrlRender (delG : List Nat) (b : Nat) : List Nat :=
  if b < 32 then control_chars.getD b [] else cstr delG

/-- Decimal digits of `n`, least significant first, with explicit fuel so
the definition is structurally recursive (any `fuel ≥ n` is enough). -/
def digitsRev (fuel n : Nat) : List Nat :=
  match fuel with
  | 0 => []
  | f + 1 => if n = 0 then [] else n % 10 :: digitsRev f (n / 10)

/-- Decimal digit bytes of `n` (most significant first), as `printf` `%d`
prints it. -/
def decBytes (n : Nat) : List Nat :=
  if n = 0 then [48] else ((digitsRev n n).map (fun d => d + 48)).reverse

/-- Bytes of `printf("%6d\t", n)`: the decimal digits right-aligned in a
6-column field padded with spaces, followed by a tab. -/
def numBytes (n : Nat) : List Nat :=
  List.replicate (6 - (decBytes n).length) 32 ++ decBytes n ++ [9]

/-- Bytes carried by one filter write. -/
def evBytes : Ev → List Nat
  | .num n => numBytes n
  | .seq l => l
  | .put b => [b]

/-- All bytes written, in order: the standard-output content when `out`
is standard output (the non-overwrite paths of `main`). -/
def mergedBytes : List Ev → List Nat
  | [] => []
  | e :: r => evBytes e ++ mergedBytes r

/-- Bytes written to the `out` stream only (`fputc(c, out)`): the content
of the rewritten file in overwrite mode. -/
def outBytes : List Ev → List Nat
  | [] => []
  | .put b :: r => b :: outBytes r
  | .num _ :: r => outBytes r
  | .seq _ :: r => outBytes r

/-- Bytes written to standard output excluding the `out` stream: in
overwrite mode, what still appears on standard output. -/
def stdOnlyBytes : List Ev → List Nat
  | [] => []
  | .put _ :: r => stdOnlyBytes r
  | .num n :: r => numBytes n ++ stdOnlyBytes r
  | .seq l :: r => l ++ stdOnlyBytes r

/-- The line numbers emitted, in order. -/
def numsOf : List Ev → List Nat
  | [] => []
  | .num n :: r => n :: numsOf r
  | .seq _ :: r => numsOf r
  | .put _ :: r => numsOf r

/-- The main loop of `cats` (lines 312-368) over the concatenated input
stream (pushback bytes followed by source bytes), one input byte per
iteration:
1. if the previous byte `c` was LF, `prev_is_lf` becomes true;
2. the next byte is read (`EOF` ends the loop, leaving `c = EOF`);
3. with `-s`, a CR/LF at line start is discarded;
4. with `-n`, at line start the pre-incremented line number is printed to
   standard output;
5. control bytes: with `-A` the rendering is printed to standard output and
   non-LF controls are discarded with `prev_is_lf := false`; without `-A`
   a CR is discarded with `prev_is_lf := false` and any other control falls
   through with `prev_is_lf` unchanged; non-control bytes clear
   `prev_is_lf`;
6. the byte is written to `out`.
The `-u` flush and the sticky `found_cr` flag (which only feed the stderr
verbose summary) do not affect the modelled streams. -/
def cats (cfg : Config) (delG : List Nat) : FState → List Nat → List Ev × FState
  | st, [] =>
    let s1 := if st.c = 10 then { st with prev_is_lf := true } else st
    ([], { s1 with c := -1 })
  | st, b :: rest =>
    let s1 := if st.c = 10 then { st with prev_is_lf := true } else st
    let s2 : FState := { s1 with c := (b : Int) }
    if cfg.suppress_blank && s2.prev_is_lf && (b == 13 || b == 10) then
      cats cfg delG s2 rest
    else
      let pre : List Ev :=
        if cfg.line_numbers && s2.prev_is_lf then [.num (s2.current_line + 1)] else []
      let s3 : FState :=
        if cfg.line_numbers && s2.prev_is_lf then
          { s2 with current_line := s2.current_line + 1 } else s2
      if iscntrlB b then
        if cfg.show_control then
          if b = 10 then
            let r := cats cfg delG s3 rest
            (pre ++ .seq (ctrlRender delG b) :: .put 10 :: r.1, r.2)
          else
            let r := cats cfg delG { s3 with prev_is_lf := false } rest
            (pre ++ .seq (ctrlRender delG b) :: r.1, r.2)
        else if b = 13 then
          let r := cats cfg delG { s3 with prev_is_lf := false } rest
          (pre ++ r.1, r.2)
        else
          let r := cats cfg delG s3 rest
          (pre ++ .put b :: r.1, r.2)
      else
        let r := cats cfg delG { s3 with prev_is_lf := false } rest
        (pre ++ .put b :: r.1, r.2)

/-- `compare_bytes` (lines 117-125): the first `n` bytes agree. -/
def compare_bytes (a b : List Nat) (n : Nat) : Bool := a.take n == b.take n

/-- The three BOM byte sequences (lines 65-67). -/
def utf8bom : List Nat := [239, 187, 191]
def utf16beBom : List Nat := [254, 255]
def utf16leBom : List Nat := [255, 254]

/-- `get_bom_length` (lines 127-137): first match wins in the order UTF-8,
UTF-16BE, UTF-16LE; returns the index (-1 for none) and the BOM length. -/
def get_bom_length (mb : List Nat) : Int × Nat :=
  if compare_bytes mb utf8bom 3 then (0, 3)
  else if compare_bytes mb utf16beBom 2 then (1, 2)
  else if compare_bytes mb utf16leBom 2 then (2, 2)
  else (-1, 0)

/-- `peek_bom` (lines 232-249): `fread` fills `maybe_bom` with the first
`min 3 (input.length)` bytes, leaving the uninitialized stack bytes
(modelled by `g0 g1 g2`) in any unread positions.  Returns the BOM index,
the leftover bytes copied into `buf` (always `3 - bom_len` entries, taken
from `maybe_bom`), and the bytes remaining in the stream. -/
def peek_bom (input : List Nat) (g0 g1 g2 : Nat) : Int × List Nat × List Nat :=
  let mb := (input ++ [g0, g1, g2]).take 3
  let r := get_bom_length mb
  (r.1, mb.drop r.2, input.drop 3)

/-- Sign extension of a byte stored in a (signed) `char`. -/
def sext (b : Nat) : Int := if b < 128 then (b : Int) else (b : Int) - 256

/-- Two's-complement 32-bit representation of a small C `int` value. -/
def toU32 (x : Int) : Nat := (x % (4294967296 : Int)).toNat

/-- Code-unit assembly of `utf8_from_utf16` (lines 264-270), bit for bit:
with `be` the source computes `(buffer[1] << 8) | buffer[0]` and otherwise
`(buffer[0] << 8) | buffer[1]`, on sign-extended `char` values; the result
is the 32-bit pattern of the C `int` `codepoint`. -/
def assemble_codepoint (be : Bool) (b0 b1 : Nat) : Nat :=
  let hi : Int := if be then sext b1 else sext b0
  let lo : Int := if be then sext b0 else sext b1
  Nat.lor (toU32 (hi * 256)) (toU32 lo)

/-- UTF-8 emission for one assembled code unit (lines 272-286), on the
32-bit pattern `u` of the signed `codepoint`: `codepoint == 0x000D` is
skipped; `codepoint < 0x80` (any negative value included) writes the low
byte; then the 2-byte and 3-byte sequences.  `fputc` truncates to the low
byte. -/
def encodeUnit (u : Nat) : List Nat :=
  if u = 13 then []
  else if 2147483648 ≤ u ∨ u < 128 then [u % 256]
  else if u < 2048 then [Nat.lor 192 (u >>> 6), Nat.lor 128 (u % 64)]
  else [Nat.lor 224 (u >>> 12), Nat.lor 128 ((u >>> 6) % 64), Nat.lor 128 (u % 64)]

/-- The successive complete 2-byte reads of `fread(buffer, 2, 1, f)`;
a trailing odd byte yields no further iteration. -/
def chunk2 : List Nat → List (Nat × Nat)
  | b0 :: b1 :: r => (b0, b1) :: chunk2 r
  | _ => []

/-- List concatenation of the per-unit emissions. -/
def joinL : List (List Nat) → List Nat
  | [] => []
  | l :: r => l ++ joinL r

/-- `utf8_from_utf16` (lines 251-291): decode complete 2-byte units and
append a trailing LF unless the final `buffer[1]` equals LF.  When no
complete unit was ever read, `buffer[1]` is the uninitialized stack byte,
modelled by `gB1`. -/
def utf8_from_utf16 (be : Bool) (input : List Nat) (gB1 : Nat) : List Nat :=
  let ps := chunk2 input
  let body := joinL (ps.map (fun p => encodeUnit (assemble_codepoint be p.1 p.2)))
  let lastB1 := match ps.getLast? with
    | some p => p.2
    | none => gB1
  body ++ (if lastB1 = 10 then [] else [10])

/-- The byte stream the filter consumes for one input (`main`, lines
454-489 and 511-564): the leftover `buf` is written into the temp file with
`fputs` (line 300), so it is truncated at its first NUL, then the rest of
the source follows — decoded when a UTF-16 BOM was recognized (`bom > 0`,
with `be = (bom == 1)`), raw bytes otherwise. -/
def filterStream (input : List Nat) (g0 g1 g2 gB1 : Nat) : List Nat :=
  let r := peek_bom input g0 g1 g2
  cstr r.2.1 ++ (if r.1 > 0 then utf8_from_utf16 (r.1 == 1) r.2.2 gB1 else r.2.2)

/-- Full per-input pipeline: BOM sniffing, optional UTF-16 decoding through
the temp file, then the filter from state `st`. -/
def runSource (cfg : Config) (delG : List Nat) (st : FState) (input : List Nat)
    (g0 g1 g2 gB1 : Nat) : List Ev × FState :=
  cats cfg delG st (filterStream input g0 g1 g2 gB1)

/-! ### Step characterizations of the filter loop -/

/-- `cats` on the empty stream: only step 1 (the LF check on the previous
byte) runs before `fgetc` yields `EOF` and the loop breaks with `c = EOF`. -/
theorem cats_nil (cfg : Config) (delG : List Nat) (st : FState) :
    cats cfg delG st [] =
      ([], ⟨-1, st.current_line, st.prev_is_lf || st.c == 10⟩) := by
  rcases st with ⟨c, line, prev⟩
  by_cases hc : c = 10 <;> simp [cats, hc]

/-- One iteration of `cats`, with the step-1 update folded into the
condition `p` (`prev_is_lf` after the LF check on the previous byte). -/
theorem cats_cons (cfg : Config) (delG : List Nat) (st : FState) (b : Nat) (rest : List Nat) :
    cats cfg delG st (b :: rest) =
      (let p := st.prev_is_lf || st.c == 10
       let ln := st.current_line
       if cfg.suppress_blank && p && (b == 13 || b == 10) then
        cats cfg delG ⟨(b : Int), ln, p⟩ rest
       else
        let pre : List Ev := if cfg.line_numbers && p then [.num (ln + 1)] else []
        let ln2 := if cfg.line_numbers && p then ln + 1 else ln
        if iscntrlB b then
          if cfg.show_control then
            if b = 10 then
              let r := cats cfg delG ⟨(b : Int), ln2, p⟩ rest
              (pre ++ .seq (ctrlRender delG b) :: .put 10 :: r.1, r.2)
            else
              let r := cats cfg delG ⟨(b : Int), ln2, false⟩ rest
              (pre ++ .seq (ctrlRender delG b) :: r.1, r.2)
          else if b = 13 then
            let r := cats cfg delG ⟨(b : Int), ln2, false⟩ rest
            (pre ++ r.1, r.2)
          else
            let r := cats cfg delG ⟨(b : Int), ln2, p⟩ rest
            (pre ++ .put b :: r.1, r.2)
        else
          let r := cats cfg delG ⟨(b : Int), ln2, false⟩ rest
          (pre ++ .put b :: r.1, r.2)) := by
  rcases st with ⟨c, line, prev⟩
  by_cases hc : c = 10
  · have hc2 : (c == 10) = true := beq_iff_eq.mpr hc
    by_cases hn : cfg.line_numbers = true <;> by_cases hp : prev = true <;>
      simp [cats, hc, hc2, hn, hp]
  · have hc2 : (c == 10) = false := by simp [hc]
    by_cases hn : cfg.line_numbers = true <;> by_cases hp : prev = true <;>
      simp [cats, hc, hc2, hn, hp]

/-! ### Byte-level helper lemmas -/

theorem mergedBytes_append (a b : List Ev) :
    mergedBytes (a ++ b) = mergedBytes a ++ mergedBytes b := by
  induction a with
  | nil => rfl
  | cons e r ih => simp [mergedBytes, ih]

theorem mergedBytes_cons (e : Ev) (l : List Ev) :
    mergedBytes (e :: l) = evBytes e ++ mergedBytes l := rfl

theorem decBytes_ge (n : Nat) : ∀ b ∈ decBytes n, 48 ≤ b := by
  intro b hb
  unfold decBytes at hb
  split at hb
  · simp at hb; omega
  · simp only [List.mem_reverse, List.mem_map] at hb
    obtain ⟨d, _, he⟩ := hb
    omega

theorem numBytes_no_cr (n : Nat) : 13 ∉ numBytes n := by
  intro h
  unfold numBytes at h
  rcases List.mem_append.1 h with h | h
  · rcases List.mem_append.1 h with h | h
    · have := List.eq_of_mem_replicate h; omega
    · have := decBytes_ge n 13 h; omega
  · simp at h

theorem control_chars_no_cr :
    ∀ c, c < 32 → ∀ b ∈ control_chars.getD c [], b ≠ 13 := by decide

theorem ctrlRender_no_cr (delG : List Nat) (h : 13 ∉ cstr delG) (c : Nat) :
    13 ∉ ctrlRender delG c := by
  intro hc
  unfold ctrlRender at hc
  split at hc
  · exact control_chars_no_cr c (by assumption) 13 hc rfl
  · exact h hc

theorem no_cr_preL (c : Bool) (n : Nat) :
    13 ∉ mergedBytes (if c = true then [Ev.num n] else []) := by
  split
  · simpa [mergedBytes, evBytes] using numBytes_no_cr n
  · simp [mergedBytes]

theorem outBytes_subset_merged (l : List Ev) : ∀ x ∈ outBytes l, x ∈ mergedBytes l := by
  induction l with
  | nil => intro x hx; simp [outBytes] at hx
  | cons e r ih =>
    intro x hx
    cases e with
    | num n =>
      rw [mergedBytes_cons]
      exact List.mem_append.mpr (Or.inr (ih x hx))
    | seq s =>
      rw [mergedBytes_cons]
      exact List.mem_append.mpr (Or.inr (ih x hx))
    | put b =>
      rw [mergedBytes_cons]
      rcases List.mem_cons.mp hx with h | h
      · exact List.mem_append.mpr (Or.inl (by simp [evBytes, h]))
      · exact List.mem_append.mpr (Or.inr (ih x h))

/-! ### Line-number positions -/

/-- Bytes after which the filter still considers itself at "line start":
nothing yet, an LF, or a control byte other than CR that was passed through
without clearing `prev_is_lf` (the `else` of `if (iscntrl(c))` at line 363
only runs for non-control bytes). -/
def lineStartish (last : Option Nat) : Bool :=
  match last with
  | none => true
  | some b => b == 10 || (iscntrlB b && !(b == 13))

/-- The last byte written after also writing `bs`, starting from `last`. -/
def lastByteAfter (last : Option Nat) (bs : List Nat) : Option Nat :=
  match bs.getLast? with
  | none => last
  | some b => some b

/-- Every line number is emitted when the output is at a `lineStartish`
position. -/
def colOKb : Option Nat → List Ev → Bool
  | _, [] => true
  | last, e :: r =>
    (match e with
     | Ev.num _ => lineStartish last
     | _ => true) && colOKb (lastByteAfter last (evBytes e)) r

/-- Every line number is emitted at column 0 proper: at the very start of
the output or immediately after an LF.  This is the claim's reading. -/
def colStrictb : Option Nat → List Ev → Bool
  | _, [] => true
  | last, e :: r =>
    (match e with
     | Ev.num _ => last == none || last == some 10
     | _ => true) && colStrictb (lastByteAfter last (evBytes e)) r

theorem lastByteAfter_append (last : Option Nat) (a b : List Nat) :
    lastByteAfter last (a ++ b) = lastByteAfter (lastByteAfter last a) b := by
  cases b with
  | nil => simp [lastByteAfter]
  | cons x xs =>
    have hbne : x :: xs ≠ ([] : List Nat) := by simp
    simp only [lastByteAfter, List.getLast?_append_of_ne_nil a hbne]
    cases hg : (x :: xs).getLast? with
    | none => exact absurd (List.getLast?_eq_none_iff.mp hg) hbne
    | some y => simp

theorem lastByte_merged_cons (last : Option Nat) (e : Ev) (r : List Ev) :
    lastByteAfter last (mergedBytes (e :: r)) =
      lastByteAfter (lastByteAfter last (evBytes e)) (mergedBytes r) := by
  rw [mergedBytes_cons, lastByteAfter_append]

theorem numBytes_getLast (n : Nat) : (numBytes n).getLast? = some 9 := by
  simp [numBytes]

theorem lastByteAfter_numBytes (last : Option Nat) (n : Nat) :
    lastByteAfter last (numBytes n) = some 9 := by
  unfold lastByteAfter
  rw [numBytes_getLast]

/-- The numbers emitted by the filter from state `st` are the consecutive
integers `st.current_line + 1, ...`, and the final state's counter accounts
for exactly those emissions (so a suppressed blank line, which emits
nothing, does not increment the counter). -/
theorem cats_nums_range (cfg : Config) (delG : List Nat) :
    ∀ (stream : List Nat) (st : FState), ∃ m,
      numsOf (cats cfg delG st stream).1 = List.range' (st.current_line + 1) m ∧
      (cats cfg delG st stream).2.current_line = st.current_line + m := by
  intro stream
  induction stream with
  | nil => intro st; exact ⟨0, by simp [cats_nil, numsOf], by simp [cats_nil]⟩
  | cons b rest ih =>
    intro st
    simp only [cats_cons]
    split
    · exact ih _
    · by_cases hn : (cfg.line_numbers && (st.prev_is_lf || st.c == 10)) = true
      · simp only [hn, if_true]
        split
        · split
          · split
            · obtain ⟨m, h1, h2⟩ :=
                ih ⟨(b : Int), st.current_line + 1, st.prev_is_lf || st.c == 10⟩
              exact ⟨m + 1, by simp [numsOf, h1, List.range'_succ], by simp [h2]; omega⟩
            · obtain ⟨m, h1, h2⟩ := ih ⟨(b : Int), st.current_line + 1, false⟩
              exact ⟨m + 1, by simp [numsOf, h1, List.range'_succ], by simp [h2]; omega⟩
          · split
            · obtain ⟨m, h1, h2⟩ := ih ⟨(b : Int), st.current_line + 1, false⟩
              exact ⟨m + 1, by simp [numsOf, h1, List.range'_succ], by simp [h2]; omega⟩
            · obtain ⟨m, h1, h2⟩ :=
                ih ⟨(b : Int), st.current_line + 1, st.prev_is_lf || st.c == 10⟩
              exact ⟨m + 1, by simp [numsOf, h1, List.range'_succ], by simp [h2]; omega⟩
        · obtain ⟨m, h1, h2⟩ := ih ⟨(b : Int), st.current_line + 1, false⟩
          exact ⟨m + 1, by simp [numsOf, h1, List.range'_succ], by simp [h2]; omega⟩
      · simp only [hn, if_false]
        split
        · split
          · split
            · obtain ⟨m, h1, h2⟩ :=
                ih ⟨(b : Int), st.current_line, st.prev_is_lf || st.c == 10⟩
              exact ⟨m, by simpa [numsOf] using h1, by simpa using h2⟩
            · obtain ⟨m, h1, h2⟩ := ih ⟨(b : Int), st.current_line, false⟩
              exact ⟨m, by simpa [numsOf] using h1, by simpa using h2⟩
          · split
            · obtain ⟨m, h1, h2⟩ := ih ⟨(b : Int), st.current_line, false⟩
              exact ⟨m, by simpa [numsOf] using h1, by simpa using h2⟩
            · obtain ⟨m, h1, h2⟩ :=
                ih ⟨(b : Int), st.current_line, st.prev_is_lf || st.c == 10⟩
              exact ⟨m, by simpa [numsOf] using h1, by simpa using h2⟩
        · obtain ⟨m, h1, h2⟩ := ih ⟨(b : Int), st.current_line, false⟩
          exact ⟨m, by simpa [numsOf] using h1, by simpa using h2⟩

theorem colOKb_pre (c : Bool) (n : Nat) (last : Option Nat) (tail : List Ev)
    (hc : c = true → lineStartish last = true) :
    colOKb last ((if c = true then [Ev.num n] else []) ++ tail) =
      colOKb (if c = true then some 9 else last) tail := by
  split
  · next h => simp [colOKb, hc h, evBytes, lastByteAfter_numBytes]
  · simp

theorem lastByte_pre (c : Bool) (n : Nat) (last : Option Nat) (tail : List Ev) :
    lastByteAfter last (mergedBytes ((if c = true then [Ev.num n] else []) ++ tail)) =
      lastByteAfter (if c = true then some 9 else last) (mergedBytes tail) := by
  split
  · rw [List.singleton_append, lastByte_merged_cons]
    simp [evBytes, lastByteAfter_numBytes]
  · simp

/-- Invariant: every number is emitted at a `lineStartish` position, and
whenever the filter believes it is at line start (`prev_is_lf`, or the
pending byte is LF), the last byte written so far is `lineStartish`. -/
theorem cats_colOK (cfg : Config) (delG : List Nat) :
    ∀ (stream : List Nat) (st : FState) (last : Option Nat),
      ((st.prev_is_lf || st.c == 10) = true → lineStartish last = true) →
      colOKb last (cats cfg delG st stream).1 = true ∧
      (((cats cfg delG st stream).2.prev_is_lf || (cats cfg delG st stream).2.c == 10) = true →
        lineStartish (lastByteAfter last (mergedBytes (cats cfg delG st stream).1)) = true) := by
  intro stream
  induction stream with
  | nil =>
    intro st last hp
    rw [cats_nil]
    refine ⟨rfl, fun hq => hp ?_⟩
    simpa using hq
  | cons b rest ih =>
    intro st last hp
    simp only [cats_cons]
    split
    · next hsup =>
      apply ih
      intro _
      apply hp
      simp only [Bool.and_eq_true] at hsup
      exact hsup.1.2
    · have hpre : (cfg.line_numbers && (st.prev_is_lf || st.c == 10)) = true →
          lineStartish last = true := by
        intro h
        simp only [Bool.and_eq_true] at h
        exact hp h.2
      split
      · next hctrl =>
        split
        · next hshow =>
          split
          · next hb10 =>
            subst hb10
            obtain ⟨ih1, ih2⟩ := ih
              ⟨(10 : Nat), (if (cfg.line_numbers && (st.prev_is_lf || st.c == 10)) = true
                  then st.current_line + 1 else st.current_line), st.prev_is_lf || st.c == 10⟩
              (some 10) (fun _ => rfl)
            constructor
            · rw [colOKb_pre _ _ _ _ hpre]
              simpa [colOKb, evBytes, ctrlRender, control_chars, lastByteAfter] using ih1
            · intro hq
              rw [lastByte_pre, lastByte_merged_cons, lastByte_merged_cons]
              simpa [evBytes, ctrlRender, control_chars, lastByteAfter] using ih2 hq
          · next hb10 =>
            obtain ⟨ih1, ih2⟩ := ih
              ⟨(b : Int), (if (cfg.line_numbers && (st.prev_is_lf || st.c == 10)) = true
                  then st.current_line + 1 else st.current_line), false⟩
              (lastByteAfter (if (cfg.line_numbers && (st.prev_is_lf || st.c == 10)) = true
                  then some 9 else last) (ctrlRender delG b))
              (by intro hq
                  rw [Bool.false_or] at hq
                  have h2 : (b : Int) = 10 := beq_iff_eq.mp hq
                  exact (hb10 (by exact_mod_cast h2)).elim)
            constructor
            · rw [colOKb_pre _ _ _ _ hpre]
              simpa [colOKb, evBytes] using ih1
            · intro hq
              rw [lastByte_pre, lastByte_merged_cons]
              simpa [evBytes] using ih2 hq
        · next hshow =>
          split
          · next hb13 =>
            obtain ⟨ih1, ih2⟩ := ih
              ⟨(b : Int), (if (cfg.line_numbers && (st.prev_is_lf || st.c == 10)) = true
                  then st.current_line + 1 else st.current_line), false⟩
              (if (cfg.line_numbers && (st.prev_is_lf || st.c == 10)) = true
                  then some 9 else last)
              (by subst hb13
                  intro hq
                  rw [Bool.false_or] at hq
                  have h2 : ((13 : Nat) : Int) = 10 := beq_iff_eq.mp hq
                  omega)
            constructor
            · rw [colOKb_pre _ _ _ _ hpre]
              exact ih1
            · intro hq
              rw [lastByte_pre]
              exact ih2 hq
          · next hb13 =>
            obtain ⟨ih1, ih2⟩ := ih
              ⟨(b : Int), (if (cfg.line_numbers && (st.prev_is_lf || st.c == 10)) = true
                  then st.current_line + 1 else st.current_line), st.prev_is_lf || st.c == 10⟩
              (some b)
              (by intro _; simp [lineStartish, hctrl, hb13])
            constructor
            · rw [colOKb_pre _ _ _ _ hpre]
              simpa [colOKb, evBytes, lastByteAfter] using ih1
            · intro hq
              rw [lastByte_pre, lastByte_merged_cons]
              simpa [evBytes, lastByteAfter] using ih2 hq
      · next hctrl =>
        have hb10 : ¬(b = 10) := fun h => hctrl (h ▸ (by decide : iscntrlB 10 = true))
        obtain ⟨ih1, ih2⟩ := ih
          ⟨(b : Int), (if (cfg.line_numbers && (st.prev_is_lf || st.c == 10)) = true
              then st.current_line + 1 else st.current_line), false⟩
          (some b)
          (by intro hq
              rw [Bool.false_or] at hq
              have h2 : (b : Int) = 10 := beq_iff_eq.mp hq
              exact (hb10 (by exact_mod_cast h2)).elim)
        constructor
        · rw [colOKb_pre _ _ _ _ hpre]
          simpa [colOKb, evBytes, lastByteAfter] using ih1
        · intro hq
          rw [lastByte_pre, lastByte_merged_cons]
          simpa [evBytes, lastByteAfter] using ih2 hq

/-- The filter never writes a CR: every write is a line-number prefix, a
control rendering, or a `fputc` of a byte the branch structure has already
checked is not 13 (assuming the indeterminate DEL-rendering buffer contains
none). -/
theorem cats_no_cr (cfg : Config) (delG : List Nat) (h : 13 ∉ cstr delG) :
    ∀ (stream : List Nat) (st : FState),
      13 ∉ mergedBytes (cats cfg delG st stream).1 := by
  intro stream
  induction stream with
  | nil => intro st; simp [cats_nil, mergedBytes]
  | cons b rest ih =>
    intro st
    simp only [cats_cons]
    split
    · exact ih _
    · split
      · split
        · split
          · intro hm
            rw [mergedBytes_append, mergedBytes_cons, mergedBytes_cons] at hm
            simp only [evBytes] at hm
            rcases List.mem_append.mp hm with hm | hm
            · exact no_cr_preL _ _ hm
            rcases List.mem_append.mp hm with hm | hm
            · exact ctrlRender_no_cr delG h b hm
            rcases List.mem_append.mp hm with hm | hm
            · simp at hm
            · exact ih _ hm
          · intro hm
            rw [mergedBytes_append, mergedBytes_cons] at hm
            simp only [evBytes] at hm
            rcases List.mem_append.mp hm with hm | hm
            · exact no_cr_preL _ _ hm
            rcases List.mem_append.mp hm with hm | hm
            · exact ctrlRender_no_cr delG h b hm
            · exact ih _ hm
        · split
          · intro hm
            rw [mergedBytes_append] at hm
            rcases List.mem_append.mp hm with hm | hm
            · exact no_cr_preL _ _ hm
            · exact ih _ hm
          · next hb13 =>
            intro hm
            rw [mergedBytes_append, mergedBytes_cons] at hm
            simp only [evBytes] at hm
            rcases List.mem_append.mp hm with hm | hm
            · exact no_cr_preL _ _ hm
            rcases List.mem_append.mp hm with hm | hm
            · rw [List.mem_singleton] at hm
              exact hb13 hm.symm
            · exact ih _ hm
      · next hctrl =>
        intro hm
        rw [mergedBytes_append, mergedBytes_cons] at hm
        simp only [evBytes] at hm
        rcases List.mem_append.mp hm with hm | hm
        · exact no_cr_preL _ _ hm
        rcases List.mem_append.mp hm with hm | hm
        · rw [List.mem_singleton] at hm
          exact hctrl (hm ▸ (by decide : iscntrlB 13 = true))
        · exact ih _ hm

end Cats

/-! ### Claims C1-C4: evaluations at the failing inputs

The next four theorems evaluate the pipeline at the concrete inputs on
which the code diverges from the specification. -/

/-- Claim C1: the spec says the 6-byte input `FE FF 00 41 00 42` (UTF-16BE
"AB") with no flags yields `AB\n` (`[65, 66, 10]`).  The code instead
yields `A\n`: `peek_bom` consumes three bytes so the decoder reads the
misaligned pairs of `41 00 42`, the swapped endian assembly turns the pair
`(41, 00)` into `A`, the dangling byte `42` is discarded as a truncated
unit, and the leftover byte `00` is dropped when the pushback buffer is
written with `fputs`. -/
theorem C1_utf16be_AB_output :
    Cats.mergedBytes
      (Cats.runSource Cats.noFlags [] Cats.initState [254, 255, 0, 65, 0, 66] 0 0 0 0).1
      = [65, 10] ∧ ([65, 10] : List Nat) ≠ [65, 66, 10] := by
  exact ⟨rfl, by decide⟩

/-- Claim C2: the spec says `big_endian = true` uses the first byte of the
pair as the high byte of the code unit.  The code computes
`(buffer[1] << 8) | buffer[0]` when `be` is true, so for the pair
`(0x00, 0x41)` it assembles `0x4100` (first byte as LOW byte) instead of
`0x0041`; the `be = false` branch is the one that uses the first byte as
the high byte. -/
theorem C2_endianness_swapped :
    Cats.assemble_codepoint true 0 65 = 16640 ∧
    Cats.assemble_codepoint false 0 65 = 65 ∧ (16640 : Nat) ≠ 65 := by
  refine ⟨by decide, by decide, by decide⟩

/-- Claim C3: the spec says the tool with no flags is the identity on
ASCII/LF input, including NUL bytes among the first three.  For the input
`00 41 0A` the sniffer reads all three bytes, finds no BOM, and pushes them
back through `fputs` of a NUL-terminated buffer: the leading NUL truncates
the pushback to nothing, so the program outputs nothing at all. -/
theorem C3_nul_input_not_identity :
    Cats.mergedBytes
      (Cats.runSource Cats.noFlags [] Cats.initState [0, 65, 10] 0 0 0 0).1 = [] ∧
    ([] : List Nat) ≠ [0, 65, 10] := by
  exact ⟨rfl, by decide⟩

/-! ### Claim C6 -/

/-- Claim C6 counterexample: with no flags the input `07 41 0A` is emitted
unchanged, so the output contains the byte 0x07 (BEL), which is a control
byte, is not LF, and cannot be part of a rendered control sequence because
`show_control` is off.  This refutes the claim's assertion that every
emitted byte is non-control, LF, or part of a rendering: without `-A` the
filter passes every control byte other than CR through raw. -/
theorem C6_counterexample :
    Cats.mergedBytes
        (Cats.runSource Cats.noFlags [] Cats.initState [7, 65, 10] 0 0 0 0).1
      = [7, 65, 10] ∧
    7 ∈ Cats.mergedBytes
        (Cats.runSource Cats.noFlags [] Cats.initState [7, 65, 10] 0 0 0 0).1 ∧
    Cats.iscntrlB 7 = true ∧ (7 : Nat) ≠ 10 ∧ Cats.noFlags.show_control = false := by
  exact ⟨rfl, by decide, by decide, by decide, rfl⟩

/-- Claim C6 (amended): for every input, flag combination, and filter
state, no byte 0x0D (CR) is ever written — neither to standard output nor
to the `out` stream (the rewritten file in overwrite mode) — provided the
indeterminate stack buffer printed for DEL under `-A` (uninitialized in the
source) contains no CR.  Control bytes other than CR may however be passed
through raw when `show_control` is off. -/
theorem C6_no_cr_emitted (cfg : Cats.Config) (delG : List Nat) (st : Cats.FState)
    (input : List Nat) (g0 g1 g2 gB1 : Nat) (h : 13 ∉ Cats.cstr delG) :
    13 ∉ Cats.mergedBytes (Cats.runSource cfg delG st input g0 g1 g2 gB1).1 ∧
    13 ∉ Cats.outBytes (Cats.runSource cfg delG st input g0 g1 g2 gB1).1 := by
  refine ⟨Cats.cats_no_cr cfg delG h _ st, fun hm => ?_⟩
  exact Cats.cats_no_cr cfg delG h _ st
    (Cats.outBytes_subset_merged _ 13 hm)

/-- Witness for C6: the amended theorem applied to a concrete run (input
`48 0D 0A` "H\r\n" with `-A -n -s` and an empty DEL buffer). -/
theorem C6_witness :
    13 ∉ Cats.cstr [] ∧
    (13 ∉ Cats.mergedBytes
        (Cats.runSource ⟨false, true, true, true, false, false⟩ [] Cats.initState
          [72, 13, 10] 0 0 0 0).1 ∧
     13 ∉ Cats.outBytes
        (Cats.runSource ⟨false, true, true, true, false, false⟩ [] Cats.initState
          [72, 13, 10] 0 0 0 0).1) :=
  ⟨by decide,
   C6_no_cr_emitted ⟨false, true, true, true, false, false⟩ [] Cats.initState
     [72, 13, 10] 0 0 0 0 (by decide)⟩

/-- Claim C4: the spec says the filter consumes exactly the sniffed
leftover bytes (none dropped) followed by the rest of the source.  For the
input `41 00 42 0A` the leftover is `41 00 42`, but `fputs` truncates it at
the NUL: the filter consumes `41 0A`, dropping the bytes `00 42`. -/
theorem C4_leftover_bytes_dropped :
    Cats.filterStream [65, 0, 66, 10] 0 0 0 0 = [65, 10] ∧
    ([65, 10] : List Nat) ≠ [65, 0, 66, 10] := by
  exact ⟨rfl, by decide⟩

/-! ### Claim C7 -/

/-- Claim C7 counterexample: with `-n` on the input `07 78` the output is
`␣␣␣␣␣1⇥\x07␣␣␣␣␣2⇥x`: the second line number is emitted immediately after
the raw BEL byte, not at column 0 of an output line.  The source does not
clear `prev_is_lf` when it passes a non-CR control byte through without
`-A`, so the next byte still counts as a line start.  `colStrictb` checks
the claim's reading (every number at the start of output or right after an
LF) and evaluates to `false` here. -/
theorem C7_counterexample :
    Cats.mergedBytes
        (Cats.runSource ⟨false, true, false, false, false, false⟩ [] Cats.initState
          [7, 120] 0 0 0 0).1
      = [32, 32, 32, 32, 32, 49, 9, 7, 32, 32, 32, 32, 32, 50, 9, 120] ∧
    Cats.colStrictb none
        (Cats.runSource ⟨false, true, false, false, false, false⟩ [] Cats.initState
          [7, 120] 0 0 0 0).1
      = false := by
  exact ⟨rfl, rfl⟩

/-- Claim C7 (amended): with `-n`, from a fresh invocation the emitted line
numbers are exactly the consecutive integers `1, 2, ...` (hence strictly
increasing and starting at 1), the final counter accounts for exactly the
numbers emitted (a suppressed blank line emits nothing and does not
increment it), and every number is emitted at the start of the output,
immediately after an LF, or immediately after a non-CR control byte that
was passed through raw (which does not clear the filter's line-start
state). -/
theorem C7_line_numbers (cfg : Cats.Config) (delG : List Nat) (input : List Nat)
    (g0 g1 g2 gB1 : Nat) (_hn : cfg.line_numbers = true) :
    (∃ m, Cats.numsOf (Cats.runSource cfg delG Cats.initState input g0 g1 g2 gB1).1
            = List.range' 1 m ∧
          (Cats.runSource cfg delG Cats.initState input g0 g1 g2 gB1).2.current_line = m) ∧
    List.Chain' (· < ·)
      (Cats.numsOf (Cats.runSource cfg delG Cats.initState input g0 g1 g2 gB1).1) ∧
    (∀ n, (Cats.numsOf (Cats.runSource cfg delG Cats.initState input g0 g1 g2 gB1).1).head?
            = some n → n = 1) ∧
    Cats.colOKb none (Cats.runSource cfg delG Cats.initState input g0 g1 g2 gB1).1 = true := by
  obtain ⟨m, h1, h2⟩ :=
    Cats.cats_nums_range cfg delG (Cats.filterStream input g0 g1 g2 gB1) Cats.initState
  have hrange : Cats.numsOf (Cats.runSource cfg delG Cats.initState input g0 g1 g2 gB1).1
      = List.range' 1 m := h1
  refine ⟨⟨m, hrange, by simpa [Cats.initState] using h2⟩, ?_, ?_, ?_⟩
  · rw [hrange]
    exact (List.pairwise_lt_range' 1 m).chain'
  · intro n hn
    rw [hrange] at hn
    cases m with
    | zero => simp at hn
    | succ k =>
      rw [List.range'_succ] at hn
      simp at hn
      omega
  · exact (Cats.cats_colOK cfg delG (Cats.filterStream input g0 g1 g2 gB1)
      Cats.initState none (fun _ => rfl)).1

/-- Witness for C7: the amended theorem at `-n` on the input `ab\ncd\n`. -/
theorem C7_witness :
    (⟨false, true, false, false, false, false⟩ : Cats.Config).line_numbers = true ∧
    ((∃ m, Cats.numsOf (Cats.runSource ⟨false, true, false, false, false, false⟩ []
            Cats.initState [97, 98, 10, 99, 100, 10] 0 0 0 0).1 = List.range' 1 m ∧
          (Cats.runSource ⟨false, true, false, false, false, false⟩ []
            Cats.initState [97, 98, 10, 99, 100, 10] 0 0 0 0).2.current_line = m) ∧
     List.Chain' (· < ·)
      (Cats.numsOf (Cats.runSource ⟨false, true, false, false, false, false⟩ []
            Cats.initState [97, 98, 10, 99, 100, 10] 0 0 0 0).1) ∧
     (∀ n, (Cats.numsOf (Cats.runSource ⟨false, true, false, false, false, false⟩ []
            Cats.initState [97, 98, 10, 99, 100, 10] 0 0 0 0).1).head? = some n → n = 1) ∧
     Cats.colOKb none (Cats.runSource ⟨false, true, false, false, false, false⟩ []
            Cats.initState [97, 98, 10, 99, 100, 10] 0 0 0 0).1 = true) :=
  ⟨rfl, C7_line_numbers ⟨false, true, false, false, false, false⟩ []
    [97, 98, 10, 99, 100, 10] 0 0 0 0 rfl⟩

namespace Cats

def noLFLFb : Option Nat → List Nat → Bool
  | _, [] => true
  | last, b :: r => !(last == some 10 && b == 10) && noLFLFb (some b) r

theorem lastByteAfter_cons (last : Option Nat) (x : Nat) (r : List Nat) :
    lastByteAfter last (x :: r) = lastByteAfter (some x) r := by
  cases r with
  | nil => rfl
  | cons y ys =>
    unfold lastByteAfter
    rw [List.getLast?_cons_cons]
    cases hg : (y :: ys).getLast? with
    | none => exact absurd (List.getLast?_eq_none_iff.mp hg) (by simp)
    | some z => rfl

theorem noLFLFb_append (a : List Nat) : ∀ (last : Option Nat) (b : List Nat),
    noLFLFb last (a ++ b) = (noLFLFb last a && noLFLFb (lastByteAfter last a) b) := by
  induction a with
  | nil => intro last b; simp [noLFLFb, lastByteAfter]
  | cons x a' ih =>
    intro last b
    rw [List.cons_append]
    show (!(last == some 10 && x == 10) && noLFLFb (some x) (a' ++ b)) = _
    rw [ih, lastByteAfter_cons]
    simp [noLFLFb, Bool.and_assoc]

theorem no10_noLFLF (bs : List Nat) : ∀ (last : Option Nat),
    (∀ x ∈ bs, x ≠ 10) → noLFLFb last bs = true := by
  induction bs with
  | nil => intro last _; rfl
  | cons x r ih =>
    intro last h
    have hx : ¬(x = 10) := h x (by simp)
    have hx2 : (x == 10) = false := by simp [hx]
    simp [noLFLFb, hx2]
    exact ih (some x) (fun y hy => h y (by simp [hy]))

theorem control_chars_no_lf :
    ∀ c, c < 32 → ∀ x ∈ control_chars.getD c [], x ≠ 10 := by decide

theorem ctrlRender_no_lf (delG : List Nat) (hdel : ∀ x ∈ cstr delG, x ≠ 10) (c : Nat) :
    ∀ x ∈ ctrlRender delG c, x ≠ 10 := by
  intro x hx
  unfold ctrlRender at hx
  split at hx
  · exact control_chars_no_lf c (by assumption) x hx
  · exact hdel x hx

theorem numBytes_no_lf (n : Nat) : ∀ x ∈ numBytes n, x ≠ 10 := by
  intro x hx
  unfold numBytes at hx
  rcases List.mem_append.1 hx with h | h
  · rcases List.mem_append.1 h with h | h
    · have := List.eq_of_mem_replicate h; omega
    · have := decBytes_ge n x h; omega
  · simp at h; omega



theorem noLFLF_pre (c : Bool) (n : Nat) (last : Option Nat) (tail : List Ev) :
    noLFLFb last (mergedBytes ((if c = true then [Ev.num n] else []) ++ tail)) =
      noLFLFb (if c = true then some 9 else last) (mergedBytes tail) := by
  split
  · rw [List.singleton_append, mergedBytes_cons]
    show noLFLFb last (numBytes n ++ _) = _
    rw [noLFLFb_append, no10_noLFLF _ last (numBytes_no_lf n), lastByteAfter_numBytes]
    simp
  · simp

theorem cats_noLFLF (cfg : Config) (delG : List Nat)
    (hsup : cfg.suppress_blank = true) (hdel : ∀ x ∈ cstr delG, x ≠ 10) :
    ∀ (stream : List Nat) (st : FState) (last : Option Nat),
      (last = some 10 → (st.c = 10 ∨ st.prev_is_lf = true ∨ cfg.show_control = true)) →
      noLFLFb last (mergedBytes (cats cfg delG st stream).1) = true ∧
      (lastByteAfter last (mergedBytes (cats cfg delG st stream).1) = some 10 →
        ((cats cfg delG st stream).2.c = 10 ∨
         (cats cfg delG st stream).2.prev_is_lf = true ∨ cfg.show_control = true)) := by
  intro stream
  induction stream with
  | nil =>
    intro st last hK
    rw [cats_nil]
    refine ⟨rfl, fun hl => ?_⟩
    rcases hK hl with h | h | h
    · right; left; simp [h]
    · right; left; simp [h]
    · right; right; exact h
  | cons b rest ih =>
    intro st last hK
    simp only [cats_cons]
    split
    · next hsupc =>
      apply ih
      intro hl
      right; left
      simp only [Bool.and_eq_true] at hsupc
      exact hsupc.1.2
    · next hnsup =>
      split
      · next hctrl =>
        split
        · next hshow =>
          split
          · next hb10 =>
            subst hb10
            obtain ⟨ih1, ih2⟩ := ih
              ⟨((10 : Nat) : Int), (if (cfg.line_numbers && (st.prev_is_lf || st.c == 10)) = true
                  then st.current_line + 1 else st.current_line), st.prev_is_lf || st.c == 10⟩
              (some 10) (fun _ => Or.inl (by norm_num))
            constructor
            · rw [noLFLF_pre]
              rw [mergedBytes_cons, mergedBytes_cons]
              show noLFLFb _ (ctrlRender delG 10 ++ ([10] ++ _)) = true
              rw [noLFLFb_append]
              rw [Bool.and_eq_true]
              refine ⟨no10_noLFLF _ _ ?_, ?_⟩
              · exact ctrlRender_no_lf delG hdel 10
              · show noLFLFb (lastByteAfter _ [36]) ([10] ++ _) = true
                simp only [lastByteAfter, List.getLast?, noLFLFb, List.singleton_append]
                simpa using ih1
            · intro hl
              rw [lastByte_pre, lastByte_merged_cons, lastByte_merged_cons] at hl
              refine ih2 ?_
              simpa [evBytes, ctrlRender, control_chars, lastByteAfter] using hl
          · next hb10 =>
            obtain ⟨ih1, ih2⟩ := ih
              ⟨(b : Int), (if (cfg.line_numbers && (st.prev_is_lf || st.c == 10)) = true
                  then st.current_line + 1 else st.current_line), false⟩
              (lastByteAfter (if (cfg.line_numbers && (st.prev_is_lf || st.c == 10)) = true
                  then some 9 else last) (ctrlRender delG b))
              (fun _ => Or.inr (Or.inr hshow))
            constructor
            · rw [noLFLF_pre, mergedBytes_cons]
              show noLFLFb _ (ctrlRender delG b ++ _) = true
              rw [noLFLFb_append]
              rw [Bool.and_eq_true]
              exact ⟨no10_noLFLF _ _ (ctrlRender_no_lf delG hdel b), ih1⟩
            · intro hl
              rw [lastByte_pre, lastByte_merged_cons] at hl
              exact ih2 hl
        · next hshow =>
          have hshowF : cfg.show_control = false := by
            cases h : cfg.show_control
            · rfl
            · exact absurd h hshow
          split
          · next hb13 =>
            subst hb13
            have hpF : (st.prev_is_lf || st.c == 10) = false := by
              cases hp : (st.prev_is_lf || st.c == 10)
              · rfl
              · exact absurd (by simp [hsup, hp]) hnsup
            obtain ⟨ih1, ih2⟩ := ih
              ⟨((13 : Nat) : Int), (if (cfg.line_numbers && (st.prev_is_lf || st.c == 10)) = true
                  then st.current_line + 1 else st.current_line), false⟩
              (if (cfg.line_numbers && (st.prev_is_lf || st.c == 10)) = true
                  then some 9 else last)
              (by simp only [hpF, Bool.and_false, if_false]
                  intro hl
                  rcases hK hl with h | h | h
                  · rw [beq_iff_eq.mpr h] at hpF; simp at hpF
                  · rw [h] at hpF; simp at hpF
                  · rw [h] at hshowF; exact absurd hshowF (by simp))
            constructor
            · rw [noLFLF_pre]
              exact ih1
            · intro hl
              rw [lastByte_pre] at hl
              exact ih2 hl
          · next hb13 =>
            by_cases hb10 : b = 10
            · subst hb10
              have hpF : (st.prev_is_lf || st.c == 10) = false := by
                cases hp : (st.prev_is_lf || st.c == 10)
                · rfl
                · exact absurd (by simp [hsup, hp]) hnsup
              have hlne : ¬(last = some 10) := by
                intro hl
                rcases hK hl with h | h | h
                · rw [beq_iff_eq.mpr h] at hpF; simp at hpF
                · rw [h] at hpF; simp at hpF
                · rw [h] at hshowF; exact absurd hshowF (by simp)
              obtain ⟨ih1, ih2⟩ := ih
                ⟨((10 : Nat) : Int), (if (cfg.line_numbers && (st.prev_is_lf || st.c == 10)) = true
                    then st.current_line + 1 else st.current_line), st.prev_is_lf || st.c == 10⟩
                (some 10) (fun _ => Or.inl (by norm_num))
              constructor
              · rw [noLFLF_pre, mergedBytes_cons]
                show noLFLFb _ ([10] ++ _) = true
                rw [List.singleton_append]
                simp only [noLFLFb]
                rw [Bool.and_eq_true]
                refine ⟨?_, ih1⟩
                simp [hpF, hlne]
              · intro hl
                rw [lastByte_pre, lastByte_merged_cons] at hl
                refine ih2 ?_
                simpa [evBytes, lastByteAfter_cons, lastByteAfter] using hl
            · obtain ⟨ih1, ih2⟩ := ih
                ⟨(b : Int), (if (cfg.line_numbers && (st.prev_is_lf || st.c == 10)) = true
                    then st.current_line + 1 else st.current_line), st.prev_is_lf || st.c == 10⟩
                (some b) (fun hl => absurd (Option.some.inj hl) hb10)
              constructor
              · rw [noLFLF_pre, mergedBytes_cons]
                show noLFLFb _ ([b] ++ _) = true
                rw [List.singleton_append]
                simp only [noLFLFb]
                rw [Bool.and_eq_true]
                refine ⟨?_, ih1⟩
                simp [hb10]
              · intro hl
                rw [lastByte_pre, lastByte_merged_cons] at hl
                refine ih2 ?_
                simpa [evBytes, lastByteAfter_cons, lastByteAfter] using hl
      · next hctrl =>
        have hb10 : ¬(b = 10) := fun h => hctrl (h ▸ (by decide : iscntrlB 10 = true))
        obtain ⟨ih1, ih2⟩ := ih
          ⟨(b : Int), (if (cfg.line_numbers && (st.prev_is_lf || st.c == 10)) = true
              then st.current_line + 1 else st.current_line), false⟩
          (some b) (fun hl => absurd (Option.some.inj hl) hb10)
        constructor
        · rw [noLFLF_pre, mergedBytes_cons]
          show noLFLFb _ ([b] ++ _) = true
          rw [List.singleton_append]
          simp only [noLFLFb]
          rw [Bool.and_eq_true]
          refine ⟨?_, ih1⟩
          simp [hb10]
        · intro hl
          rw [lastByte_pre, lastByte_merged_cons] at hl
          refine ih2 ?_
          simpa [evBytes, lastByteAfter_cons, lastByteAfter] using hl


end Cats

/-! ### Claim C8 -/

/-- Claim C8: with `-s`, for every input (and any flag combination, any
filter state reachable from a fresh invocation) the standard-output byte
stream contains no two consecutive LF bytes, provided the indeterminate
DEL-rendering buffer contains no LF.  An LF can only be written when
`prev_is_lf` is false, and reading it makes `prev_is_lf` true, so the next
LF or CR at line start is discarded before anything is emitted. -/
theorem C8_no_double_lf (cfg : Cats.Config) (delG : List Nat) (input : List Nat)
    (g0 g1 g2 gB1 : Nat) (hsup : cfg.suppress_blank = true)
    (hdel : ∀ x ∈ Cats.cstr delG, x ≠ 10) :
    Cats.noLFLFb none
      (Cats.mergedBytes (Cats.runSource cfg delG Cats.initState input g0 g1 g2 gB1).1) = true :=
  (Cats.cats_noLFLF cfg delG hsup hdel _ Cats.initState none (fun h => by simp at h)).1

/-- Witness for C8: the theorem applied to `-s` on the input `a\n\n\nb\n`. -/
theorem C8_witness :
    (⟨false, false, false, true, false, false⟩ : Cats.Config).suppress_blank = true ∧
    (∀ x ∈ Cats.cstr ([] : List Nat), x ≠ 10) ∧
    Cats.noLFLFb none
      (Cats.mergedBytes (Cats.runSource ⟨false, false, false, true, false, false⟩ []
        Cats.initState [97, 10, 10, 10, 98, 10] 0 0 0 0).1) = true :=
  ⟨rfl, by decide,
   C8_no_double_lf ⟨false, false, false, true, false, false⟩ []
     [97, 10, 10, 10, 98, 10] 0 0 0 0 rfl (by decide)⟩
namespace Cats

/-- After a run the persistent `c` holds `EOF`. -/
theorem cats_final_c (cfg : Config) (delG : List Nat) :
    ∀ (stream : List Nat) (st : FState), (cats cfg delG st stream).2.c = -1 := by
  intro stream
  induction stream with
  | nil => intro st; rw [cats_nil]
  | cons b rest ih =>
    intro st
    simp only [cats_cons]
    split
    · exact ih _
    · split
      · split
        · split
          · exact ih _
          · exact ih _
        · split
          · exact ih _
          · exact ih _
      · exact ih _

/-- If the filter is not at line start and the pending byte is not LF, the
first thing it writes for the next input is not a line-number prefix. -/
theorem cats_no_lead_num (cfg : Config) (delG : List Nat) :
    ∀ (stream : List Nat) (st : FState),
      st.prev_is_lf = false → st.c ≠ 10 →
      ∀ n, (cats cfg delG st stream).1.head? ≠ some (Ev.num n) := by
  intro stream
  induction stream with
  | nil => intro st h1 h2 n; rw [cats_nil]; simp
  | cons b rest ih =>
    intro st h1 h2 n
    have hp : (st.prev_is_lf || st.c == 10) = false := by
      rw [h1]
      simp [h2]
    simp only [cats_cons]
    split
    · next hsupc =>
      rw [hp] at hsupc
      simp at hsupc
    · rw [hp]
      simp only [Bool.and_false]
      split
      · split
        · split
          · simp
          · simp
        · split
          · next hb13 =>
            subst hb13
            simp only [if_neg (by simp : ¬(false = true)), List.nil_append]
            exact ih _ rfl (by norm_num) n
          · simp
      · simp

end Cats

/-! ### Claim C9 -/

/-- Claim C9 counterexample: with `-n`, after a first file `x\n\x07` whose
last emitted byte is BEL (0x07, not LF), the first byte of the next file
IS given a line-number prefix: the raw-passed control byte does not clear
`prev_is_lf`, so the filter still believes it is at line start.  The first
event of the second file's run is the line number 3. -/
theorem C9_counterexample :
    (Cats.mergedBytes (Cats.runSource ⟨false, true, false, false, false, false⟩ []
        Cats.initState [120, 10, 7] 0 0 0 0).1).getLast? = some 7 ∧
    (7 : Nat) ≠ 10 ∧
    (Cats.runSource ⟨false, true, false, false, false, false⟩ []
        (Cats.runSource ⟨false, true, false, false, false, false⟩ []
          Cats.initState [120, 10, 7] 0 0 0 0).2
        [121] 0 0 0 0).1.head? = some (Cats.Ev.num 3) := by
  exact ⟨by decide, by decide, by decide⟩

/-- Claim C9 (amended): the filter state persists across input files within
one invocation: with `-n`, the numbers of the second file continue exactly
where the first file's counter stopped (`m1 + 1, ...`); and when the first
file's last emitted byte leaves the filter outside line-start state — it is
neither an LF nor a raw-passed non-CR control byte (`lineStartish`) — the
first write for the next file is not a line-number prefix. -/
theorem C9_cross_file (cfg : Cats.Config) (delG : List Nat) (in1 in2 : List Nat)
    (g0 g1 g2 gB1 h0 h1 h2 h3 : Nat) :
    (∃ m1 m2,
      Cats.numsOf (Cats.runSource cfg delG Cats.initState in1 g0 g1 g2 gB1).1
        = List.range' 1 m1 ∧
      Cats.numsOf (Cats.runSource cfg delG
          (Cats.runSource cfg delG Cats.initState in1 g0 g1 g2 gB1).2
          in2 h0 h1 h2 h3).1 = List.range' (m1 + 1) m2) ∧
    (∀ b, (Cats.mergedBytes
          (Cats.runSource cfg delG Cats.initState in1 g0 g1 g2 gB1).1).getLast? = some b →
      Cats.lineStartish (some b) = false →
      ∀ n, (Cats.runSource cfg delG
          (Cats.runSource cfg delG Cats.initState in1 g0 g1 g2 gB1).2
          in2 h0 h1 h2 h3).1.head? ≠ some (Cats.Ev.num n)) := by
  constructor
  · simp only [Cats.runSource]
    obtain ⟨m1, ha1, ha2⟩ :=
      Cats.cats_nums_range cfg delG (Cats.filterStream in1 g0 g1 g2 gB1) Cats.initState
    obtain ⟨m2, hb1, hb2⟩ :=
      Cats.cats_nums_range cfg delG (Cats.filterStream in2 h0 h1 h2 h3)
        (Cats.cats cfg delG Cats.initState (Cats.filterStream in1 g0 g1 g2 gB1)).2
    refine ⟨m1, m2, ha1, ?_⟩
    rw [hb1, ha2]
    norm_num [Cats.initState]
  · intro b hlast hls n
    simp only [Cats.runSource] at hlast ⊢
    have hcol := (Cats.cats_colOK cfg delG (Cats.filterStream in1 g0 g1 g2 gB1)
      Cats.initState none (fun _ => rfl)).2
    have hlba : Cats.lastByteAfter none (Cats.mergedBytes (Cats.cats cfg delG Cats.initState
        (Cats.filterStream in1 g0 g1 g2 gB1)).1) = some b := by
      simp only [Cats.lastByteAfter, hlast]
    have hprev : ((Cats.cats cfg delG Cats.initState
          (Cats.filterStream in1 g0 g1 g2 gB1)).2.prev_is_lf ||
        (Cats.cats cfg delG Cats.initState
          (Cats.filterStream in1 g0 g1 g2 gB1)).2.c == 10) = false := by
      cases hcase : ((Cats.cats cfg delG Cats.initState
          (Cats.filterStream in1 g0 g1 g2 gB1)).2.prev_is_lf ||
        (Cats.cats cfg delG Cats.initState
          (Cats.filterStream in1 g0 g1 g2 gB1)).2.c == 10) with
      | false => rfl
      | true =>
        have hT := hcol hcase
        rw [hlba] at hT
        rw [hT] at hls
        exact absurd hls (by simp)
    obtain ⟨hpf, _⟩ := Bool.or_eq_false_iff.mp hprev
    exact Cats.cats_no_lead_num cfg delG _ _ hpf
      (by rw [Cats.cats_final_c]; norm_num) n

/-- Witness for C9: the amended theorem with `-n` for the files `ax` and
`y\n`: the first file ends in the printable byte `x`, and the second file's
first write is not a number. -/
theorem C9_witness :
    (Cats.mergedBytes (Cats.runSource ⟨false, true, false, false, false, false⟩ []
        Cats.initState [97, 120] 0 0 0 0).1).getLast? = some 120 ∧
    Cats.lineStartish (some 120) = false ∧
    (Cats.runSource ⟨false, true, false, false, false, false⟩ []
        (Cats.runSource ⟨false, true, false, false, false, false⟩ []
          Cats.initState [97, 120] 0 0 0 0).2
        [121, 10] 0 0 0 0).1.head? ≠ some (Cats.Ev.num 1) :=
  ⟨by decide, by decide,
   (C9_cross_file ⟨false, true, false, false, false, false⟩ [] [97, 120] [121, 10]
      0 0 0 0 0 0 0 0).2 120 (by decide) (by decide) 1⟩
namespace Cats

theorem outBytes_pre (c : Bool) (n : Nat) (tail : List Ev) :
    outBytes ((if c = true then [Ev.num n] else []) ++ tail) = outBytes tail := by
  split <;> simp [outBytes]

theorem stdOnly_pre (c : Bool) (n : Nat) (tail : List Ev) :
    stdOnlyBytes ((if c = true then [Ev.num n] else []) ++ tail) =
      (if c = true then numBytes n else []) ++ stdOnlyBytes tail := by
  split <;> simp [stdOnlyBytes]

/-- The bytes sent to the `out` stream depend only on the `-s` and `-A`
flags and on the `prev_is_lf`/`c` state: the line-number machinery writes
to standard output only and never changes which bytes reach `out`. -/
theorem cats_out_congr (cfg1 cfg2 : Config) (delG : List Nat)
    (hs : cfg1.suppress_blank = cfg2.suppress_blank)
    (hc : cfg1.show_control = cfg2.show_control) :
    ∀ (stream : List Nat) (l1 l2 : Nat) (c : Int) (p : Bool),
      outBytes (cats cfg1 delG ⟨c, l1, p⟩ stream).1 =
      outBytes (cats cfg2 delG ⟨c, l2, p⟩ stream).1 := by
  intro stream
  induction stream with
  | nil => intro l1 l2 c p; rw [cats_nil, cats_nil]
  | cons b rest ih =>
    intro l1 l2 c p
    simp only [cats_cons]
    by_cases hsup : (cfg2.suppress_blank && (p || c == 10) && (b == 13 || b == 10)) = true
    · rw [if_pos (by rw [hs]; exact hsup), if_pos hsup]
      exact ih _ _ _ _
    · rw [if_neg (by rw [hs]; exact hsup), if_neg hsup]
      by_cases hctrl : iscntrlB b = true
      · rw [if_pos hctrl, if_pos hctrl]
        by_cases hshow : cfg2.show_control = true
        · rw [if_pos (by rw [hc]; exact hshow), if_pos hshow]
          by_cases hb10 : b = 10
          · rw [if_pos hb10, if_pos hb10]
            simp only [outBytes_pre, outBytes]
            exact congrArg (List.cons 10) (ih _ _ _ _)
          · rw [if_neg hb10, if_neg hb10]
            simp only [outBytes_pre, outBytes]
            exact ih _ _ _ _
        · rw [if_neg (by rw [hc]; exact hshow), if_neg hshow]
          by_cases hb13 : b = 13
          · rw [if_pos hb13, if_pos hb13]
            simp only [outBytes_pre]
            exact ih _ _ _ _
          · rw [if_neg hb13, if_neg hb13]
            simp only [outBytes_pre, outBytes]
            exact congrArg (List.cons b) (ih _ _ _ _)
      · rw [if_neg hctrl, if_neg hctrl]
        simp only [outBytes_pre, outBytes]
        exact congrArg (List.cons b) (ih _ _ _ _)

/-- Without `-n` and `-A` the filter writes nothing to standard output
beyond the `out` stream: every write is a `fputc` to `out`. -/
theorem cats_std_empty (cfg : Config) (delG : List Nat)
    (hn : cfg.line_numbers = false) (hsc : cfg.show_control = false) :
    ∀ (stream : List Nat) (st : FState),
      stdOnlyBytes (cats cfg delG st stream).1 = [] := by
  intro stream
  induction stream with
  | nil => intro st; rw [cats_nil]; rfl
  | cons b rest ih =>
    intro st
    simp only [cats_cons]
    split
    · exact ih _
    · rw [hn]
      simp only [Bool.false_and, List.nil_append]
      split
      · split
        · next hshow => rw [hsc] at hshow; exact absurd hshow (by simp)
        · split
          · simp only [if_neg (by simp : ¬(false = true)), List.nil_append]
            exact ih _
          · simp only [if_neg (by simp : ¬(false = true)), List.nil_append, stdOnlyBytes]
            exact ih _
      · simp only [if_neg (by simp : ¬(false = true)), List.nil_append, stdOnlyBytes]
        exact ih _

end Cats

/-! ### Claim C10 -/

/-- Claim C10: in overwrite mode the `out` stream is the rewritten file
while `printf` (line numbers) and `fputs(buf, stdout)` (renderings) write
to standard output.  Formally: (1) the bytes reaching the `out` stream are
unchanged when `-n` is toggled, so line-number prefixes never reach the
rewritten file; (2) with neither `-n` nor `-A` requested, nothing reaches
standard output besides the `out` stream — i.e. everything except prefixes
and renderings is written to the file; every event is a `put` (to the
file), a `num` or a `seq` (to standard output) by the structure of the
loop. -/
theorem C10_overwrite_routing (cfg : Cats.Config) (delG : List Nat) (st : Cats.FState)
    (input : List Nat) (g0 g1 g2 gB1 : Nat) (bl : Bool) :
    Cats.outBytes (Cats.runSource cfg delG st input g0 g1 g2 gB1).1 =
      Cats.outBytes (Cats.runSource { cfg with line_numbers := bl } delG st input
        g0 g1 g2 gB1).1 ∧
    (cfg.line_numbers = false → cfg.show_control = false →
      Cats.stdOnlyBytes (Cats.runSource cfg delG st input g0 g1 g2 gB1).1 = []) := by
  constructor
  · simp only [Cats.runSource]
    rcases st with ⟨c, l, p⟩
    exact Cats.cats_out_congr cfg { cfg with line_numbers := bl } delG rfl rfl
      (Cats.filterStream input g0 g1 g2 gB1) l l c p
  · intro hn hsc
    exact Cats.cats_std_empty cfg delG hn hsc _ st

/-- Witness for C10: with no flags, toggling `-n` does not change the
`out`-stream bytes of the run on `hi\n`, and nothing is written to
standard output besides the `out` stream. -/
theorem C10_witness :
    (Cats.outBytes (Cats.runSource Cats.noFlags [] Cats.initState [104, 105, 10] 0 0 0 0).1 =
      Cats.outBytes (Cats.runSource { Cats.noFlags with line_numbers := true } []
        Cats.initState [104, 105, 10] 0 0 0 0).1 ∧
     (Cats.noFlags.line_numbers = false → Cats.noFlags.show_control = false →
      Cats.stdOnlyBytes (Cats.runSource Cats.noFlags [] Cats.initState
        [104, 105, 10] 0 0 0 0).1 = [])) ∧
    Cats.noFlags.line_numbers = false ∧ Cats.noFlags.show_control = false ∧
    Cats.stdOnlyBytes (Cats.runSource Cats.noFlags [] Cats.initState
      [104, 105, 10] 0 0 0 0).1 = [] :=
  ⟨C10_overwrite_routing Cats.noFlags [] Cats.initState [104, 105, 10] 0 0 0 0 true,
   rfl, rfl,
   (C10_overwrite_routing Cats.noFlags [] Cats.initState [104, 105, 10] 0 0 0 0 true).2
     rfl rfl⟩
namespace Cats

/-- Result of `set_flag` (lines 139-208): the argument is a filename
(`str[0] != '-'`), a recognized flag string (with the updated globals), or
a process exit (0 for `--help`/`--version`, 1 for unknown options). -/
inductive SFRes where
  | file : SFRes
  | flag : Config → SFRes
  | exit : Nat → SFRes
deriving DecidableEq, Repr

/-- The scan over `str[1..]` in `set_flag`: short options update the
globals; at a `-` the whole original string is compared against the long
options (`--help` and `--version` exit 0, `--overwrite` returns
immediately, anything else exits 1); any other character exits 1. -/
def setFlagGo (orig : List Char) : Config → List Char → SFRes
  | c, [] => .flag c
  | c, ch :: rest =>
    if ch = 'v' then setFlagGo orig { c with verbose := true } rest
    else if ch = 'n' then setFlagGo orig { c with line_numbers := true } rest
    else if ch = 'A' then setFlagGo orig { c with show_control := true } rest
    else if ch = 's' then setFlagGo orig { c with suppress_blank := true } rest
    else if ch = 'u' then setFlagGo orig { c with unbuffered := true } rest
    else if ch = 'o' then setFlagGo orig { c with overwrite := true } rest
    else if ch = '-' then
      if orig = "--help".toList then .exit 0
      else if orig = "--overwrite".toList then .flag { c with overwrite := true }
      else if orig = "--version".toList then .exit 0
      else .exit 1
    else .exit 1

/-- `set_flag` (lines 139-208) on one argument string. -/
def set_flag (c : Config) (s : List Char) : SFRes :=
  match s with
  | [] => .file
  | ch :: rest => if ch = '-' then setFlagGo s c rest else .file

/-- Environment of one file argument as `main` observes it: the length of its
name, what `stat`/`fopen` report, the bytes the stream delivers before
`fgetc` returns `EOF`, the sniffer's garbage bytes, and whether the stream
ended in a read error / whether writes succeed.  The last two fields are
deliberately never consulted by `mainExit` below, because the source never
checks them: `fgetc` returns `EOF` both at end-of-file and on a read error
and `ferror` is never called; the results of `fputc`/`fwrite` are ignored;
and the `freopen` results at lines 539 and 545-547 are checked against the
wrong (already non-NULL) variable, so reopen failures go unnoticed too. -/
structure FileEnv where
  nameLen : Nat
  isDir : Bool
  openOk : Bool
  tempOpenOk : Bool
  bytes : List Nat
  g0 : Nat
  g1 : Nat
  g2 : Nat
  readErr : Bool
  writeOk : Bool
deriving DecidableEq, Repr

/-- One command-line argument: an option string or an input file with its
environment. -/
inductive Arg where
  | opt : List Char → Arg
  | inputFile : FileEnv → Arg
deriving DecidableEq, Repr

/-- `has_files |= !set_flag(...)`: an argument counts as a file iff its
first character is not `-` (or it is empty). -/
def isFileArg : Arg → Bool
  | .inputFile _ => true
  | .opt s =>
    match s with
    | [] => true
    | ch :: _ => !(ch == '-')

/-- The first loop of `main` (lines 435-437): every argument goes through
`set_flag`, which exits the process on `--help`/`--version`/unknown
options and otherwise accumulates the global flags. -/
def pass1 : Config → List Arg → Except Nat Config
  | c, [] => .ok c
  | c, .opt s :: r =>
    (match set_flag c s with
     | .exit n => .error n
     | .flag c2 => pass1 c2 r
     | .file => pass1 c r)
  | c, .inputFile _ :: r => pass1 c r

/-- Exit decision for one file in the second loop of `main` (lines
491-565): directories and failed `fopen`s exit 1; on the temp-file path
(`bom > 0 || overwrite`) the `catstemp` name check exits 1 when appending
`.catstemp` cannot change the first 256 characters (i.e. the name fills
the buffer: `strncat` copies at most 256 characters, so `strncmp(filename,
buf, 256)` is 0 exactly when the name has length ≥ 256 — reaching this in
the source also overflows the stack buffer), and a failed `fopen` of the
temp file exits 1.  Read and write errors during decode/copy/filter are
invisible (see `FileEnv`), so processing otherwise continues. -/
def processFile (cfg : Config) (fe : FileEnv) : Option Nat :=
  if fe.isDir then some 1
  else if !fe.openOk then some 1
  else
    if (peek_bom fe.bytes fe.g0 fe.g1 fe.g2).1 > 0 || cfg.overwrite then
      if 256 ≤ fe.nameLen then some 1
      else if !fe.tempOpenOk then some 1
      else none
    else none

/-- The second loop of `main`: flags are skipped (their `set_flag` calls
can no longer exit), files are processed in order until one exits. -/
def pass2 (cfg : Config) : List Arg → Nat
  | [] => 0
  | .opt _ :: r => pass2 cfg r
  | .inputFile fe :: r =>
    (match processFile cfg fe with
     | some n => n
     | none => pass2 cfg r)

/-- Exit code of `main` (lines 427-567): argument scan; `setvbuf` check
(line 442, only without `-u` and with files); the stdin path rejects
`--overwrite` and, when a UTF-16 BOM is found, exits 1 only if the temp
file cannot be opened (the `catstemp("STDIN", 64, ...)` name always fits);
otherwise the files are processed in order and the process returns 0. -/
def mainExit (args : List Arg) (vbufOk : Bool) (stdinBytes : List Nat)
    (sg0 sg1 sg2 : Nat) (stdinTempOk : Bool) : Nat :=
  match pass1 noFlags args with
  | .error n => n
  | .ok cfg =>
    let useStdin := !(args.any isFileArg)
    if !cfg.unbuffered && !useStdin && !vbufOk then 1
    else if useStdin then
      if cfg.overwrite then 1
      else if (peek_bom stdinBytes sg0 sg1 sg2).1 > 0 && !stdinTempOk then 1
      else 0
    else pass2 cfg args

end Cats

/-! ### Claim C5 -/

/-- Claim C5 counterexample: a file whose stream ends in a read error and
whose writes fail still yields exit code 0 — the source never checks
`ferror`, `fputc`, or `fwrite` results, so "exits with code 1 on every
read or write failure" is false. -/
theorem C5_counterexample :
    Cats.mainExit
      [Cats.Arg.inputFile ⟨1, false, true, true, [65], 0, 0, 0, true, false⟩]
      true [] 0 0 0 true = 0 ∧ (0 : Nat) ≠ 1 :=
  ⟨rfl, by decide⟩

/-- Claim C5 (amended): the process exits 0 on success and on
`--help`/`--version`, and exits 1 on unknown options, directory arguments,
failed `fopen` of an input or temp file, and the temp-file name collision;
read and write failures on already-open streams are not detected (read
errors look like end-of-file, write results are unchecked) and leave the
exit code unchanged. -/
theorem C5_exit_codes :
    (∀ (args : List Cats.Arg) (v : Bool) (sb : List Nat) (a b c : Nat) (stk : Bool),
      Cats.mainExit (Cats.Arg.opt "--help".toList :: args) v sb a b c stk = 0) ∧
    (∀ (args : List Cats.Arg) (v : Bool) (sb : List Nat) (a b c : Nat) (stk : Bool),
      Cats.mainExit (Cats.Arg.opt "--version".toList :: args) v sb a b c stk = 0) ∧
    (∀ (s : List Char) (args : List Cats.Arg) (v : Bool) (sb : List Nat)
        (a b c : Nat) (stk : Bool),
      Cats.set_flag Cats.noFlags s = Cats.SFRes.exit 1 →
      Cats.mainExit (Cats.Arg.opt s :: args) v sb a b c stk = 1) ∧
    (∀ (fe : Cats.FileEnv) (sb : List Nat) (a b c : Nat) (stk : Bool),
      fe.isDir = true →
      Cats.mainExit [Cats.Arg.inputFile fe] true sb a b c stk = 1) ∧
    (∀ (fe : Cats.FileEnv) (sb : List Nat) (a b c : Nat) (stk : Bool),
      fe.isDir = false → fe.openOk = false →
      Cats.mainExit [Cats.Arg.inputFile fe] true sb a b c stk = 1) ∧
    (∀ (fe : Cats.FileEnv) (sb : List Nat) (a b c : Nat) (stk : Bool),
      fe.isDir = false → fe.openOk = true → 256 ≤ fe.nameLen →
      Cats.mainExit [Cats.Arg.opt ['-', 'o'], Cats.Arg.inputFile fe] true sb a b c stk = 1) ∧
    (∀ (fe : Cats.FileEnv) (sb : List Nat) (a b c : Nat) (stk : Bool),
      fe.isDir = false → fe.openOk = true → fe.tempOpenOk = true → fe.nameLen < 256 →
      Cats.mainExit [Cats.Arg.inputFile fe] true sb a b c stk = 0) ∧
    (∀ (sb : List Nat) (a b c : Nat),
      Cats.mainExit [] true sb a b c true = 0) := by
  refine ⟨?_, ?_, ?_, ?_, ?_, ?_, ?_, ?_⟩
  · intro args v sb a b c stk
    rfl
  · intro args v sb a b c stk
    rfl
  · intro s args v sb a b c stk h
    simp [Cats.mainExit, Cats.pass1, h]
  · intro fe sb a b c stk h
    simp [Cats.mainExit, Cats.pass1, Cats.pass2, Cats.processFile, Cats.isFileArg, h]
  · intro fe sb a b c stk h1 h2
    simp [Cats.mainExit, Cats.pass1, Cats.pass2, Cats.processFile, Cats.isFileArg, h1, h2]
  · intro fe sb a b c stk h1 h2 h3
    simp [Cats.mainExit, Cats.pass1, Cats.pass2, Cats.processFile, Cats.isFileArg,
      Cats.set_flag, Cats.setFlagGo, h1, h2, h3]
  · intro fe sb a b c stk h1 h2 h3 h4
    by_cases hb : (Cats.peek_bom fe.bytes fe.g0 fe.g1 fe.g2).1 > 0 <;>
      simp [Cats.mainExit, Cats.pass1, Cats.pass2, Cats.processFile, Cats.isFileArg,
        Cats.noFlags, h1, h2, h3, hb, Nat.not_le.mpr h4]
  · intro sb a b c
    simp [Cats.mainExit, Cats.pass1, Cats.isFileArg, Cats.noFlags]

/-- Witness for C5: each conjunct of the amended theorem instantiated at a
concrete argument list. -/
theorem C5_witness :
    Cats.mainExit [Cats.Arg.opt "--help".toList] true [] 0 0 0 true = 0 ∧
    Cats.mainExit [Cats.Arg.opt "--version".toList] true [] 0 0 0 true = 0 ∧
    (Cats.set_flag Cats.noFlags ['-', 'q'] = Cats.SFRes.exit 1 ∧
     Cats.mainExit [Cats.Arg.opt ['-', 'q']] true [] 0 0 0 true = 1) ∧
    Cats.mainExit [Cats.Arg.inputFile ⟨1, true, true, true, [], 0, 0, 0, false, true⟩]
      true [] 0 0 0 true = 1 ∧
    Cats.mainExit [Cats.Arg.inputFile ⟨1, false, false, true, [], 0, 0, 0, false, true⟩]
      true [] 0 0 0 true = 1 ∧
    Cats.mainExit [Cats.Arg.opt ['-', 'o'],
      Cats.Arg.inputFile ⟨300, false, true, true, [], 0, 0, 0, false, true⟩]
      true [] 0 0 0 true = 1 ∧
    Cats.mainExit [Cats.Arg.inputFile ⟨1, false, true, true, [104, 105], 0, 0, 0, false, true⟩]
      true [] 0 0 0 true = 0 ∧
    Cats.mainExit [] true [104, 105] 0 0 0 true = 0 :=
  ⟨C5_exit_codes.1 [] true [] 0 0 0 true,
   C5_exit_codes.2.1 [] true [] 0 0 0 true,
   ⟨by decide, C5_exit_codes.2.2.1 ['-', 'q'] [] true [] 0 0 0 true (by decide)⟩,
   C5_exit_codes.2.2.2.1 ⟨1, true, true, true, [], 0, 0, 0, false, true⟩ [] 0 0 0 true rfl,
   C5_exit_codes.2.2.2.2.1 ⟨1, false, false, true, [], 0, 0, 0, false, true⟩
     [] 0 0 0 true rfl rfl,
   C5_exit_codes.2.2.2.2.2.1 ⟨300, false, true, true, [], 0, 0, 0, false, true⟩
     [] 0 0 0 true rfl rfl (by decide),
   C5_exit_codes.2.2.2.2.2.2.1 ⟨1, false, true, true, [104, 105], 0, 0, 0, false, true⟩
     [] 0 0 0 true rfl rfl rfl (by decide),
   C5_exit_codes.2.2.2.2.2.2.2 [104, 105] 0 0 0⟩
